import Mathlib

/-!
Verification development for the silver-inventory tracker pipeline
(`src/app.py`).  The definitions below are a shallow embedding of the
Python source: pandas DataFrames become lists of rows with explicit
integer row labels (pandas keeps original labels after `dropna`, and the
source mixes label-based `loc` access with positional `iloc` slicing, so
the embedding models both), cell values become an explicit `Cell` type,
machine floats become exact rationals, dates become integer day numbers,
and Python string operations are modelled on `List Char` (ASCII scope,
which covers every marker token the source searches for).
-/

namespace Silver

/-! ## Python string-operation models (`upper`, `strip`, `in`, `' '.join`, `str`) -/

/-- Model of `str.upper` on a single ASCII character. -/
def upChar : Char → Char
| 'a' => 'A' | 'b' => 'B' | 'c' => 'C' | 'd' => 'D' | 'e' => 'E' | 'f' => 'F'
| 'g' => 'G' | 'h' => 'H' | 'i' => 'I' | 'j' => 'J' | 'k' => 'K' | 'l' => 'L'
| 'm' => 'M' | 'n' => 'N' | 'o' => 'O' | 'p' => 'P' | 'q' => 'Q' | 'r' => 'R'
| 's' => 'S' | 't' => 'T' | 'u' => 'U' | 'v' => 'V' | 'w' => 'W' | 'x' => 'X'
| 'y' => 'Y' | 'z' => 'Z' | c => c

/-- Model of `str.upper`. -/
def upChars (l : List Char) : List Char := l.map upChar

/-- Whitespace test used by the model of `str.strip`. -/
def isSpaceChar : Char → Bool
| ' ' => true | '\t' => true | '\n' => true | '\r' => true | _ => false

/-- Model of `str.strip` (drop whitespace from both ends). -/
def trimChars (l : List Char) : List Char :=
  ((l.dropWhile isSpaceChar).reverse.dropWhile isSpaceChar).reverse

/-- Bool test that `pat` starts the string `s` (helper for substring search). -/
def isPrefTok : List Char → List Char → Bool
| [], _ => true
| _ :: _, [] => false
| a :: as, b :: bs => a == b && isPrefTok as bs

/-- Model of Python's substring containment `pat in s`. -/
def subTok (pat : List Char) : List Char → Bool
| [] => isPrefTok pat []
| c :: rest => isPrefTok pat (c :: rest) || subTok pat rest

/-- Model of `' '.join(parts)`. -/
def joinSp : List (List Char) → List Char
| [] => []
| [x] => x
| x :: y :: rest => x ++ ' ' :: joinSp (y :: rest)

/-- One decimal digit as a character (Python decimal formatting). -/
def digitChar : Nat → Char
| 0 => '0' | 1 => '1' | 2 => '2' | 3 => '3' | 4 => '4'
| 5 => '5' | 6 => '6' | 7 => '7' | 8 => '8' | _ => '9'

/-- Numeric value of a decimal digit character. -/
def digitVal : Char → Nat
| '0' => 0 | '1' => 1 | '2' => 2 | '3' => 3 | '4' => 4
| '5' => 5 | '6' => 6 | '7' => 7 | '8' => 8 | '9' => 9 | _ => 0

/-- Fuel-driven decimal rendering of a natural number (structural, so that
concrete instances reduce inside the kernel). -/
def natCharsAux : Nat → Nat → List Char
| 0, _ => []
| fuel + 1, n => if n < 10 then [digitChar n] else natCharsAux fuel (n / 10) ++ [digitChar (n % 10)]

/-- Decimal digit string of a natural number, as Python's `str`/f-string prints it. -/
def natChars (n : Nat) : List Char := natCharsAux (n + 1) n

/-- Decimal representation of a natural number as a `String`. -/
def natStr (n : Nat) : String := ⟨natChars n⟩

/-- Decimal-evaluation of a digit string (left inverse of `natChars`). -/
def fromChars (l : List Char) : Nat := l.foldl (fun a c => 10 * a + digitVal c) 0

/-- Decimal rendering of an integer. -/
def intChars (n : Int) : List Char :=
  match n with
  | .ofNat m => natChars m
  | .negSucc m => '-' :: natChars (m + 1)

/-! ## RawGrid cells and the Tabular Extractor (`load_data`, app.py lines 449-525)

A raw spreadsheet cell is empty (pandas `NaN`), a string, or a number
(pandas reads Excel numerics as floats; the model keeps the integer value
and renders `str(v)` with a trailing `.0` the way Python prints such
floats). -/

/-- One cell of the raw grid. -/
inductive Cell
| empty
| str (s : String)
| num (n : Int)
deriving DecidableEq, Repr

/-- The `pd.isna` test for a cell. -/
def cellIsEmpty : Cell → Bool
| .empty => true
| _ => false

/-- Cell at column `j` of a (possibly ragged) row; pandas pads short rows with `NaN`. -/
def cellAt (row : List Cell) (j : Nat) : Cell := row.getD j .empty

/-- Model of Python `str(v)` on a cell (`str(nan) = "nan"`, floats print as `n.0`). -/
def pyStrChars : Cell → List Char
| .empty => ['n', 'a', 'n']
| .str s => s.data
| .num n => intChars n ++ ['.', '0']

/-- Model of `' '.join(str(v).upper() for v in row if pd.notna(v))` (app.py line 462). -/
def rowStrChars (row : List Cell) : List Char :=
  joinSp ((row.filter (fun c => !cellIsEmpty c)).map (fun c => upChars (pyStrChars c)))

/-- A row that `dropna(how="all")` removes. -/
def rowAllEmpty (row : List Cell) : Bool := row.all cellIsEmpty

/-- Keep the non-empty rows together with their original pandas labels
(`dropna` preserves the original integer index). -/
def stripFrom (n : Nat) : List (List Cell) → List (Nat × List Cell)
| [] => []
| r :: rs => if rowAllEmpty r then stripFrom (n + 1) rs else (n, r) :: stripFrom (n + 1) rs

/-- Width of the raw grid (pandas pads every row to the widest). -/
def maxWidth (g : List (List Cell)) : Nat := g.foldr (fun r m => max r.length m) 0

/-- Columns kept by `dropna(axis=1, how="all")`, evaluated after the row drop. -/
def keptCols (g : List (List Cell)) : List Nat :=
  (List.range (maxWidth g)).filter (fun j => (stripFrom 0 g).any (fun p => !cellIsEmpty (cellAt p.2 j)))

/-- Project a row onto the kept columns. -/
def projRow (g : List (List Cell)) (row : List Cell) : List Cell :=
  (keptCols g).map (fun j => cellAt row j)

/-- The grid after `dropna(how="all").dropna(axis=1, how="all")`, with original row labels. -/
def stripped (g : List (List Cell)) : List (Nat × List Cell) :=
  (stripFrom 0 g).map (fun p => (p.1, projRow g p.2))

/-- First column of a row of the stripped grid (`df.iloc[:, 0]`). -/
def firstCell (row : List Cell) : Cell := row.headD .empty

/-- Header test of app.py line 464: the joined row text contains both
`RECEIVED` and `WITHDRAWN`. -/
def hasBothMarkers (row : List Cell) : Bool :=
  subTok "RECEIVED".data (rowStrChars row) && subTok "WITHDRAWN".data (rowStrChars row)

/-- Fallback header test of app.py lines 470-473: first column is a string
containing `DEPOSITORY` whose stripped length is below 30. -/
def depositoryHdr (row : List Cell) : Bool :=
  match firstCell row with
  | .str s => subTok "DEPOSITORY".data (upChars s.data) && decide ((trimChars s.data).length < 30)
  | _ => false

/-- Case-insensitive containment of an (uppercase) token in the first column,
as `.astype(str).str.contains(tok, case=False, na=False)` evaluates it. -/
def firstColHas (tok : String) (row : List Cell) : Bool :=
  subTok tok.data (upChars (pyStrChars (firstCell row)))

/-- Row match for `"TOTAL REGISTERED"` (app.py line 496). -/
def trMatch (row : List Cell) : Bool := firstColHas "TOTAL REGISTERED" row

/-- Row match for `"TOTAL ELIGIBLE"` (app.py line 497). -/
def teMatch (row : List Cell) : Bool := firstColHas "TOTAL ELIGIBLE" row

/-- Row match for the broad fallback substring `"TOTAL"` (app.py line 516). -/
def totalMatch (row : List Cell) : Bool := firstColHas "TOTAL" row

/-- Header-row search of app.py lines 460-477.  It returns the pandas LABEL
of the header row (the source then slices positionally with
`raw.iloc[header_idx + 1:]`, mixing label and position). -/
def headerLabel (S : List (Nat × List Cell)) : Option Nat :=
  match S.find? (fun p => hasBothMarkers p.2) with
  | some p => some p.1
  | none =>
    match S.find? (fun p => depositoryHdr p.2) with
    | some p => some p.1
    | none => S.head?.map (fun p => p.1)

/-- Result of `load_data`: no totals at all, the grand-total record
(`Registered`/`Eligible` taken from the last column of the first matching
rows), or the legacy fallback (all rows whose first column contains
`TOTAL`). -/
inductive Totals
| notFound
| grand (reg elig : Cell)
| legacy (rows : List (List Cell))
deriving DecidableEq, Repr

/-- The totals component of `load_data` (app.py lines 449-525) on a decoded
raw grid.  `df = raw.iloc[header_idx + 1:]` is modelled by `List.drop
(lbl + 1)` on the stripped list: `header_idx` is a label while `iloc`
drops by position, exactly as in the source.  The header forward-fill and
column dedup of lines 479-493 only rename columns and cannot change the
returned totals, so they are modelled separately (`dedupCols`). -/
def loadTotals (g : List (List Cell)) : Totals :=
  let S := stripped g
  match headerLabel S with
  | none => .notFound
  | some lbl =>
    let df := S.drop (lbl + 1)
    match df.filter (fun p => trMatch p.2), df.filter (fun p => teMatch p.2) with
    | tr :: _, te :: _ => .grand (tr.2.getLastD .empty) (te.2.getLastD .empty)
    | _, _ =>
      match df.filter (fun p => totalMatch p.2) with
      | [] => .notFound
      | l => .legacy (l.map (fun p => p.2))

/-- Claim-side predicate: this row matches no marker token — its joined text
contains neither `RECEIVED` nor `WITHDRAWN`, and its first column is not a
string containing `DEPOSITORY`. -/
def markerFree (row : List Cell) : Bool :=
  !subTok "RECEIVED".data (rowStrChars row) &&
  !subTok "WITHDRAWN".data (rowStrChars row) &&
  (match firstCell row with
   | .str s => !subTok "DEPOSITORY".data (upChars s.data)
   | _ => true)

/-- Claim-side predicate: the first column does not contain `TOTAL`
(case-insensitively). -/
def noTotalCol (row : List Cell) : Bool := !firstColHas "TOTAL" row

/-! ## Header dedup of `load_data` (app.py lines 482-492) -/

/-- Update of the `seen` dictionary. -/
def updSeen (seen : String → Option Nat) (c : String) (n : Nat) : String → Option Nat :=
  fun s => if s = c then some n else seen s

/-- The dedup loop of app.py lines 483-491: `seen` maps a name to the number
of extra occurrences so far; a repeated name is emitted as
`f"{col_str}_{seen[col_str]}"` after the increment. -/
def dedupAux (seen : String → Option Nat) : List String → List String
| [] => []
| c :: rest =>
  match seen c with
  | some n => (c ++ "_" ++ natStr (n + 1)) :: dedupAux (updSeen seen c (n + 1)) rest
  | none => c :: dedupAux (updSeen seen c 0) rest

/-- Column-name dedup of `load_data` (starts from an empty `seen` dict). -/
def dedupCols (cols : List String) : List String := dedupAux (fun _ => none) cols

/-- The `seen` dictionary after processing a prefix of the columns. -/
def mkSeen (pre : List String) : String → Option Nat :=
  fun s => if pre.count s = 0 then none else some (pre.count s - 1)

/-- Spec-side description of the dedup output: the occurrence of a name with
`k` earlier occurrences is emitted bare when `k = 0` and as `name_k`
otherwise (suffixes `_1, _2, …` in order of appearance). -/
def specList (pre : List String) : List String → List String
| [] => []
| c :: rest =>
  (if pre.count c = 0 then c else c ++ "_" ++ natStr (pre.count c)) :: specList (pre ++ [c]) rest

/-- Spec-side dedup of a whole header. -/
def dedupSpec (cols : List String) : List String := specList [] cols

/-! ## Historical store entries and the upsert of `download_and_save`
(app.py lines 419-436) -/

/-- One row of `inventory_history.csv`: a calendar day (integer day number)
with the registered and eligible ounces. -/
structure Entry where
  date : Int
  registered : ℚ
  eligible : ℚ
deriving DecidableEq, Repr

/-- Model of `drop_duplicates(subset=["Date"], keep="last")`: a row survives exactly
when no later row carries the same date, and the surviving rows keep
their order. -/
def dropDupKeepLast : List Entry → List Entry
| [] => []
| e :: rest =>
  if rest.any (fun x => x.date == e.date) then dropDupKeepLast rest
  else e :: dropDupKeepLast rest

/-- The history upsert of app.py lines 428-436: append the new entry, then
drop duplicate dates keeping the last occurrence. -/
def upsert (hist : List Entry) (e : Entry) : List Entry := dropDupKeepLast (hist ++ [e])

/-! ## `download_and_save` (app.py lines 392-446)

An attempt either raises inside the network fetch (`requests.get` /
`raise_for_status`, modelled `netFail`) or downloads content which is
immediately written to the local report file; `load_data` then extracts an
optional totals record from that content.  `TotalsRec` carries the two
`pd.to_numeric(..., errors="coerce")` results (`none` = `NaN`). -/

/-- The numeric totals extracted from a downloaded report by `load_data`. -/
structure TotalsRec where
  registered : Option ℚ
  eligible : Option ℚ
deriving DecidableEq, Repr

/-- A downloaded report body, characterised by what `load_data` extracts from it. -/
structure Content where
  totals : Option TotalsRec
deriving DecidableEq, Repr

/-- Outcome of one fetch attempt. -/
inductive Attempt
| netFail (msg : String)
| fetched (c : Content)
deriving DecidableEq, Repr

/-- The externally visible state touched by `download_and_save`: the local
report file and the history CSV. -/
structure DState where
  localFile : Option Content
  history : List Entry
deriving DecidableEq, Repr

/-- Result of `download_and_save` plus observation counters: how many fetch
attempts ran and the total `time.sleep` delay between them. -/
structure DResult where
  ok : Bool
  msg : String
  state : DState
  attemptsUsed : Nat
  delayTotal : Nat
deriving DecidableEq, Repr

/-- The retry loop of app.py lines 395-446.  `remaining` counts the retries
still allowed (the source's `attempt < 2` test), `attempt` indexes the
outcome of each try.  Only a raised exception retries (with a fixed
2-second sleep); a fetched report always overwrites the local file first,
and a parse failure returns immediately. -/
def dasGo (outcomes : Nat → Attempt) (today : Int) : Nat → Nat → Nat → DState → DResult
| remaining, attempt, delayAcc, s =>
  match outcomes attempt with
  | .netFail msg =>
    match remaining with
    | r + 1 => dasGo outcomes today r (attempt + 1) (delayAcc + 2) s
    | 0 => ⟨false, "Download failed after 3 attempts: " ++ msg, s, attempt + 1, delayAcc⟩
  | .fetched c =>
    match c.totals with
    | none => ⟨false, "Could not parse totals from Excel file", ⟨some c, s.history⟩, attempt + 1, delayAcc⟩
    | some t =>
      match t.registered with
      | none => ⟨false, "Could not extract registered value", ⟨some c, s.history⟩, attempt + 1, delayAcc⟩
      | some rv =>
        let ev := t.eligible.getD 301972070
        ⟨true, "Data updated successfully!",
          ⟨some c, upsert s.history ⟨today, rv, ev⟩⟩, attempt + 1, delayAcc⟩

/-- Entry point of `download_and_save`: up to 3 attempts (`for attempt in range(3)`). -/
def downloadAndSave (outcomes : Nat → Attempt) (today : Int) (s : DState) : DResult :=
  dasGo outcomes today 2 0 0 s

/-! ## `fetch_open_interest` (app.py lines 36-51) -/

/-- The value handling of `fetch_open_interest` after `info.get('openInterest')`:
`if oi: return oi` — Python truthiness sends a present-but-zero field down
the same `return None` path as an absent field. -/
def fetchOpenInterest (openInterestField : Option Int) : Option Int :=
  match openInterestField with
  | some oi => if oi ≠ 0 then some oi else none
  | none => none

/-! ## `get_withdrawal_trend` (app.py lines 72-105) -/

/-- Date order on history entries (`df.sort_values('Date')`). -/
def dateLE (a b : Entry) : Prop := a.date ≤ b.date

instance : DecidableRel dateLE := fun a b => (inferInstance : Decidable (a.date ≤ b.date))

instance : IsTotal Entry dateLE := ⟨fun a b => Int.le_total a.date b.date⟩

instance : IsTrans Entry dateLE := ⟨fun _ _ _ h1 h2 => le_trans h1 h2⟩

/-- Model of `df.iloc[-1]`: the last row of a list, with a fallback for the empty list. -/
def lastOr : List Entry → Entry → Entry
| [], d => d
| b :: t, _ => lastOr t b

/-- The `idxmin` scan over `|Date - target|`: keep the current best, replace
only on a strictly smaller distance (so the first minimum wins, as
`Series.idxmin` returns the first minimal row). -/
def closestGo (target : Int) (best : Entry) : List Entry → Entry
| [] => best
| e :: rest =>
  closestGo target (if (e.date - target).natAbs < (best.date - target).natAbs then e else best) rest

/-- Model of `get_withdrawal_trend` on the decoded history rows: sort by date, take
the last row as current, find the row closest to (current date − 7), and
declare the trend undefined when that row is more than 5 days off. -/
def getWithdrawalTrend (hist : List Entry) : Option ℚ × Nat :=
  match List.insertionSort dateLE hist with
  | [] => (none, 0)
  | s0 :: srest =>
    let cur := lastOr srest s0
    let target := cur.date - 7
    let c := closestGo target s0 srest
    if 5 < (c.date - target).natAbs then (none, 0)
    else (some (cur.registered - c.registered), 7)

/-! ## `backfill_historical_data` (app.py lines 277-390) -/

/-- The piecewise base value and decline factor of app.py lines 344-368,
selected by `months_back` = days back / 30. -/
def piecewiseBase (mb : ℚ) : ℚ × ℚ :=
  if 30 < mb then (230000000, 1 - (36 - mb) * (1/100))
  else if 24 < mb then (215000000, 1 - (30 - mb) * (12/1000))
  else if 18 < mb then (200000000, 1 - (24 - mb) * (15/1000))
  else if 12 < mb then (185000000, 1 - (18 - mb) * (18/1000))
  else if 9 < mb then (180000000, 1 - (12 - mb) * (2/100))
  else if 6 < mb then (165000000, 1 - (9 - mb) * (3/100))
  else if 3 < mb then (145000000, 1 - (6 - mb) * (4/100))
  else (125000000, 1 - (3 - mb) * (5/100))

/-- One synthetic history entry (app.py lines 339-378).  `hashF` models the
process's `hash(str(single_date))`; Python's `%` on a positive modulus
agrees with Lean's `Int.emod`.  `reg_value = max(base * decline *
variation, current_value)`. -/
def synthEntry (now : Int) (cv : ℚ) (hashF : Int → Int) (n : Nat) : Entry :=
  let date := now - 1095 + n
  let mb : ℚ := (1095 - (n : ℚ)) / 30
  let bd := piecewiseBase mb
  let dv : ℚ := 1 + ((hashF date % 100 - 50 : Int) : ℚ) / 1000
  let rv := max (bd.1 * bd.2 * dv) cv
  let ev : ℚ := 300000000 * (1 + (max 0 (36 - mb)) * (2/1000))
  ⟨date, rv, ev⟩

/-- The generated 3-year series, one entry per day (`days_span + 1 = 1096` days). -/
def syntheticSeries (now : Int) (cv : ℚ) (hashF : Int → Int) : List Entry :=
  (List.range 1096).map (synthEntry now cv hashF)

/-- The series after `historical_data[-1] = [today, current_value, 301_972_070]`
and `drop_duplicates(subset=["Date"], keep="last")` (app.py lines 381-386). -/
def syntheticAnchored (now : Int) (cv : ℚ) (hashF : Int → Int) : List Entry :=
  dropDupKeepLast ((syntheticSeries now cv hashF).dropLast ++ [⟨now, cv, 301972070⟩])

/-- Model of `hist_df['Date'].min()` as a day number. -/
def minDate : List Entry → Int
| [] => 0
| e :: rest => rest.foldl (fun m x => min m x.date) e.date

/-- The `needs_backfill` decision and the `current_value` anchor of app.py
lines 279-308: backfill when the file is missing, has at most one row, or
spans fewer than `3*365 - 5 = 1090` days; the anchor is the default
113,269,767 (no file / empty file), the first row (single-row file), or
the last row (short-span file). -/
def backfillNeeds (now : Int) (hist : Option (List Entry)) : Bool × ℚ :=
  match hist with
  | none => (true, 113269767)
  | some l =>
    if l.length ≤ 1 then
      (true, match l.head? with | some e => e.registered | none => 113269767)
    else
      if now - minDate l < 1090 then
        (true, match l.getLast? with | some e => e.registered | none => 113269767)
      else (false, 113269767)

/-- Model of `backfill_historical_data`: when backfill is needed, non-empty archival
data replaces the file; otherwise the synthetic anchored series replaces
the file wholesale (`new_df.to_csv(HISTORY_FILE)`).  Returns the flag the
source returns plus the resulting file contents. -/
def backfillHistoricalData (now : Int) (hist : Option (List Entry))
    (archival : Option (List Entry)) (hashF : Int → Int) : Bool × Option (List Entry) :=
  let nd := backfillNeeds now hist
  if nd.1 then
    match archival with
    | some l =>
      if 0 < l.length then (true, some l)
      else (true, some (syntheticAnchored now nd.2 hashF))
    | none => (true, some (syntheticAnchored now nd.2 hashF))
  else (false, hist)

/-! ## Concrete instances used by witnesses and counterexamples -/

/-- A well-formed report grid: header row first, grand-total rows beneath. -/
def gGood : List (List Cell) :=
  [[.str "DEPOSITORY", .str "RECEIVED", .str "WITHDRAWN"],
   [.str "TOTAL REGISTERED", .num 5, .num 7],
   [.str "TOTAL ELIGIBLE", .num 6, .num 9]]

/-- The same grid with one fully-empty row on top. -/
def gBad : List (List Cell) :=
  [[.empty, .empty, .empty],
   [.str "DEPOSITORY", .str "RECEIVED", .str "WITHDRAWN"],
   [.str "TOTAL REGISTERED", .num 5, .num 7],
   [.str "TOTAL ELIGIBLE", .num 6, .num 9]]

/-- A grid with no marker tokens and no TOTAL rows. -/
def gPlain : List (List Cell) :=
  [[.str "hello", .num 1],
   [.str "world", .num 2]]

/-- A short genuine history: a real entry 1089 days old and today's entry. -/
def histC6 : List Entry :=
  [⟨6, 120000000, 5⟩, ⟨1095, 113269767, 6⟩]

/-- A history with entries exactly 0, 7 and 14 days into the record. -/
def histC7 : List Entry :=
  [⟨0, 100, 0⟩, ⟨7, 90, 0⟩, ⟨14, 80, 0⟩]

/-- A fixed stand-in for Python's per-process string hash. -/
def hzero : Int → Int := fun _ => 0

/-- Attempt schedule: first fetch succeeds but the report has no totals,
later fetches would parse fine. -/
def outcomesParseFail : Nat → Attempt :=
  fun n => if n = 0 then .fetched ⟨none⟩ else .fetched ⟨some ⟨some 5, some 6⟩⟩

/-- Attempt schedule: the network fetch raises every time. -/
def outcomesAllRaise : Nat → Attempt := fun _ => .netFail "timeout"

/-- An empty starting state. -/
def s0 : DState := ⟨none, []⟩

/-- A previously stored, fully parseable report. -/
def c0 : Content := ⟨some ⟨some 1, some 2⟩⟩

/-- A downloaded report whose decode/parse finds no totals. -/
def cBad : Content := ⟨none⟩

/-- Starting state that already holds the good report `c0`. -/
def s5 : DState := ⟨some c0, []⟩

/-- Attempt schedule: every fetch succeeds but returns the bad report. -/
def outcomesBadContent : Nat → Attempt := fun _ => .fetched cBad

/-! ## Helper lemmas about `dropDupKeepLast` -/

/-- Every survivor of the keep-last dedup was in the input. -/
theorem dropDup_subset : ∀ l : List Entry, dropDupKeepLast l ⊆ l := by
  intro l
  induction l with
  | nil => simp [dropDupKeepLast]
  | cons e rest ih =>
    unfold dropDupKeepLast
    by_cases ha : rest.any (fun x => x.date == e.date)
    · simp only [ha, if_pos]
      exact ih.trans (List.subset_cons_self e rest)
    · simp only [ha, if_neg, not_false_iff]
      exact List.cons_subset_cons e ih

/-- After appending `e`, the entries sharing `e`'s date collapse to `[e]`. -/
theorem upsert_filter_self : ∀ (h : List Entry) (e : Entry),
    (upsert h e).filter (fun x => x.date == e.date) = [e] := by
  intro h e
  unfold upsert
  induction h with
  | nil => simp [dropDupKeepLast]
  | cons x h ih =>
    rw [List.cons_append]
    unfold dropDupKeepLast
    cases ha : (h ++ [e]).any (fun y => y.date == x.date) with
    | true => simpa [ha] using ih
    | false =>
      have hne : e.date ≠ x.date := by
        have := List.any_eq_false.mp ha e (List.mem_append_right h (List.mem_singleton_self e))
        simpa using this
      rw [if_neg (by simp [ha])]
      rw [List.filter_cons_of_neg (by simp only [beq_iff_eq]; exact fun hx => hne hx.symm)]
      exact ih

/-- The keep-last dedup leaves at most one entry per date. -/
theorem dropDup_filter_len : ∀ (l : List Entry) (d : Int),
    ((dropDupKeepLast l).filter (fun x => x.date == d)).length ≤ 1 := by
  intro l d
  induction l with
  | nil => simp [dropDupKeepLast]
  | cons e rest ih =>
    unfold dropDupKeepLast
    cases ha : rest.any (fun x => x.date == e.date) with
    | true => simpa [ha] using ih
    | false =>
      rw [if_neg (by simp [ha])]
      by_cases hed : (e.date == d) = true
      · rw [List.filter_cons_of_pos (by simpa using hed)]
        have hnone : (dropDupKeepLast rest).filter (fun x => x.date == d) = [] := by
          rw [List.filter_eq_nil_iff]
          intro x hx
          have hxrest : x ∈ rest := dropDup_subset rest hx
          have := List.any_eq_false.mp ha x hxrest
          simp only [beq_iff_eq] at this ⊢
          intro hxd
          exact this (hxd.trans (beq_iff_eq.mp hed).symm)
        simp [hnone]
      · rw [List.filter_cons_of_neg (by simpa using hed)]
        exact ih

/-- C3: Upserting the same `(date, registered, eligible)` entry twice leaves
the store with exactly one entry for that date, equal to the latest
upserted values; the store never holds two entries with the same date, and
a new write for a present date replaces the old entry rather than
duplicating it. -/
theorem C3_upsert_last_write_wins (h : List Entry) (e : Entry) :
    (upsert h e).filter (fun x => x.date == e.date) = [e] ∧
    (∀ d : Int, ((upsert h e).filter (fun x => x.date == d)).length ≤ 1) ∧
    (upsert (upsert h e) e).filter (fun x => x.date == e.date) = [e] :=
  ⟨upsert_filter_self h e, fun d => dropDup_filter_len (h ++ [e]) d, upsert_filter_self (upsert h e) e⟩

/-! ## C9: zero open interest -/

/-- C9: When the open-interest feed returns the named field with value
exactly 0, `fetch_open_interest` reports the `None` outcome, identical to
the outcome for an absent field. -/
theorem C9_zero_open_interest :
    fetchOpenInterest (some 0) = none ∧ fetchOpenInterest none = none ∧
    fetchOpenInterest (some 0) = fetchOpenInterest none := ⟨rfl, rfl, rfl⟩

/-! ## C4: retry policy of `download_and_save` -/

/-- C4 counterexample: the first attempt fetches a report with no aggregate
row ("no aggregate row found" failure); the procedure stops after a single
attempt with zero delay even though the next attempt would have parsed
fine — so it does not retry up to 3 attempts on any failure as claimed. -/
theorem C4_counterexample :
    (downloadAndSave outcomesParseFail 0 s0).ok = false ∧
    (downloadAndSave outcomesParseFail 0 s0).msg = "Could not parse totals from Excel file" ∧
    (downloadAndSave outcomesParseFail 0 s0).attemptsUsed = 1 ∧
    (downloadAndSave outcomesParseFail 0 s0).delayTotal = 0 ∧
    outcomesParseFail 1 = .fetched ⟨some ⟨some 5, some 6⟩⟩ :=
  ⟨rfl, rfl, rfl, rfl, rfl⟩

/-- C4 (amended): the warehouse fetch retries up to 3 attempts with a fixed
2-second delay only on exceptions raised by the network fetch itself;
a fetched report whose decode/parse yields no totals returns a descriptive
failure immediately on the first attempt without any retry; after three
raising attempts it returns a descriptive failure string rather than
raising. -/
theorem C4_retry_amended (outcomes : Nat → Attempt) (today : Int) (s : DState)
    (m0 m1 m2 : String) (c : Content) :
    ((outcomes 0 = .netFail m0 ∧ outcomes 1 = .netFail m1 ∧ outcomes 2 = .netFail m2) →
      downloadAndSave outcomes today s =
        ⟨false, "Download failed after 3 attempts: " ++ m2, s, 3, 4⟩) ∧
    ((outcomes 0 = .fetched c ∧ c.totals = none) →
      downloadAndSave outcomes today s =
        ⟨false, "Could not parse totals from Excel file", ⟨some c, s.history⟩, 1, 0⟩) := by
  constructor
  · rintro ⟨h0, h1, h2⟩
    simp [downloadAndSave, dasGo, h0, h1, h2]
  · rintro ⟨h0, hc⟩
    simp [downloadAndSave, dasGo, h0, hc]

/-- C4 witness: three raising attempts produce the descriptive failure
result with 3 attempts used and two fixed 2-second delays. -/
theorem C4_witness :
    downloadAndSave outcomesAllRaise 0 s0 =
      ⟨false, "Download failed after 3 attempts: timeout", s0, 3, 4⟩ :=
  (C4_retry_amended outcomesAllRaise 0 s0 "timeout" "timeout" "timeout" ⟨none⟩).1 ⟨rfl, rfl, rfl⟩

/-! ## C5: local report file on failure paths -/

/-- C5 counterexample: the fetch succeeds but the downloaded report parses
to no totals; `download_and_save` reports failure, yet the local report
file now holds the new unparseable content instead of the previously
stored good report — a failure path that does overwrite the local file. -/
theorem C5_counterexample :
    (downloadAndSave outcomesBadContent 0 s5).ok = false ∧
    (downloadAndSave outcomesBadContent 0 s5).state.localFile = some cBad ∧
    s5.localFile = some c0 ∧ cBad ≠ c0 :=
  ⟨rfl, rfl, rfl, by decide⟩

/-- C5 (amended): the local report file is unchanged when every attempt
fails inside the network fetch itself (the exception fires before the
write), but any successful download overwrites the local file before
decode/parse — so a fetch whose decode or extraction then fails leaves the
newly downloaded content in place. -/
theorem C5_file_overwrite_amended (outcomes : Nat → Attempt) (today : Int) (s : DState)
    (m0 m1 m2 : String) (c : Content) :
    ((outcomes 0 = .netFail m0 ∧ outcomes 1 = .netFail m1 ∧ outcomes 2 = .netFail m2) →
      (downloadAndSave outcomes today s).state = s) ∧
    (outcomes 0 = .fetched c →
      (downloadAndSave outcomes today s).state.localFile = some c) := by
  constructor
  · rintro ⟨h0, h1, h2⟩
    simp [downloadAndSave, dasGo, h0, h1, h2]
  · intro h0
    cases hct : c.totals with
    | none => simp [downloadAndSave, dasGo, h0, hct]
    | some t =>
      cases hreg : t.registered with
      | none => simp [downloadAndSave, dasGo, h0, hct, hreg]
      | some rv => simp [downloadAndSave, dasGo, h0, hct, hreg]

/-- C5 witness: a successful fetch of the good report stores exactly that
content in the local file. -/
theorem C5_witness :
    (downloadAndSave (fun _ => .fetched c0) 0 s0).state.localFile = some c0 :=
  (C5_file_overwrite_amended (fun _ => .fetched c0) 0 s0 "" "" "" c0).2 rfl

/-! ## Helper lemmas about the synthetic backfill series -/

/-- When all dates are distinct, the keep-last dedup changes nothing. -/
theorem dropDup_eq_self (l : List Entry)
    (h : (l.map (fun e => e.date)).Nodup) : dropDupKeepLast l = l := by
  induction l with
  | nil => rfl
  | cons e rest ih =>
    rw [List.map_cons, List.nodup_cons] at h
    unfold dropDupKeepLast
    rw [if_neg, ih h.2]
    rw [List.any_eq_true]
    rintro ⟨x, hx, hbeq⟩
    exact h.1 (List.mem_map.mpr ⟨x, hx, beq_iff_eq.mp hbeq⟩)

/-- Date of a synthetic entry. -/
theorem synthEntry_date (now : Int) (cv : ℚ) (hashF : Int → Int) (n : Nat) :
    (synthEntry now cv hashF n).date = now - 1095 + (n : Int) := rfl

/-- The anchored synthetic series laid out explicitly: 1095 generated days
followed by the replaced last entry. -/
theorem syntheticAnchored_eq (now : Int) (cv : ℚ) (hashF : Int → Int) :
    syntheticAnchored now cv hashF =
      ((List.range 1095).map (synthEntry now cv hashF)) ++ [⟨now, cv, 301972070⟩] := by
  have hrange : (1096 : Nat) = 1095 + 1 := rfl
  have hdrop : (syntheticSeries now cv hashF).dropLast =
      (List.range 1095).map (synthEntry now cv hashF) := by
    rw [syntheticSeries, hrange, List.range_succ, List.map_append, List.map_singleton,
      List.dropLast_concat]
  rw [syntheticAnchored, hdrop]
  apply dropDup_eq_self
  rw [List.map_append, List.map_map]
  rw [List.nodup_append]
  refine ⟨?_, by simp, ?_⟩
  · refine List.Nodup.map ?_ (List.nodup_range 1095)
    intro a b hab
    simp only [Function.comp_apply, synthEntry_date] at hab
    omega
  · intro x hx hx2
    simp only [List.map_cons, List.map_nil, List.mem_singleton] at hx2
    rcases List.mem_map.mp hx with ⟨n, hn, rfl⟩
    rw [List.mem_range] at hn
    simp only [Function.comp_apply, synthEntry_date] at hx2
    omega

/-- Every generated day below the anchor is a member of the anchored series. -/
theorem synthEntry_mem_anchored (now : Int) (cv : ℚ) (hashF : Int → Int) (n : Nat)
    (hn : n < 1095) : synthEntry now cv hashF n ∈ syntheticAnchored now cv hashF := by
  rw [syntheticAnchored_eq]
  exact List.mem_append_left _ (List.mem_map.mpr ⟨n, List.mem_range.mpr hn, rfl⟩)

/-- Generic `find?` evaluation from a positional witness: the element at
index `n` satisfies the predicate and every earlier element fails it. -/
theorem find?_of_getElem? {α : Type} (p : α → Bool) :
    ∀ (l : List α) (n : Nat) (a : α), l[n]? = some a → p a = true →
      (∀ m b, m < n → l[m]? = some b → p b = false) → l.find? p = some a := by
  intro l
  induction l with
  | nil => intro n a h; simp at h
  | cons x xs ih =>
    intro n a hget hp hbefore
    cases n with
    | zero =>
      simp only [List.getElem?_cons_zero, Option.some.injEq] at hget
      subst hget
      exact List.find?_cons_of_pos _ hp
    | succ n =>
      have hx : p x = false := hbefore 0 x (Nat.succ_pos n) (by simp)
      rw [List.find?_cons_of_neg _ (by simp [hx])]
      rw [List.getElem?_cons_succ] at hget
      exact ih n a hget hp (fun m b hm hget2 =>
        hbefore (m + 1) b (Nat.succ_lt_succ hm) (by simpa using hget2))

/-- Looking up a generated date in the anchored synthetic series returns the
synthetic entry for that day. -/
theorem syntheticAnchored_find_date (now : Int) (cv : ℚ) (hashF : Int → Int)
    (d : Int) (n : Nat) (hn : n < 1095) (hd : d = now - 1095 + (n : Int)) :
    (syntheticAnchored now cv hashF).find? (fun e => e.date == d) =
      some (synthEntry now cv hashF n) := by
  rw [syntheticAnchored_eq]
  apply find?_of_getElem? _ _ n
  · rw [List.getElem?_append_left (by simpa using hn)]
    rw [List.getElem?_map, List.getElem?_range hn]
    rfl
  · show ((synthEntry now cv hashF n).date == d) = true
    rw [synthEntry_date, hd, beq_iff_eq]
  · intro m b hm hget
    rw [List.getElem?_append_left (by simp; omega)] at hget
    rw [List.getElem?_map, List.getElem?_range (by omega)] at hget
    simp at hget
    subst hget
    show ((synthEntry now cv hashF m).date == d) = false
    rw [synthEntry_date, hd, beq_eq_false_iff_ne]
    intro hcontra
    omega

/-- C10: every registered value in the synthetic backfill series is at least
the anchoring current real registered value `cv`: the generated values use
`max(..., current_value)` and the final entry is `current_value` itself. -/
theorem C10_synthetic_floor (now : Int) (cv : ℚ) (hashF : Int → Int) (e : Entry)
    (he : e ∈ syntheticAnchored now cv hashF) : cv ≤ e.registered := by
  rw [syntheticAnchored_eq] at he
  rcases List.mem_append.mp he with hl | hr
  · rcases List.mem_map.mp hl with ⟨n, _, rfl⟩
    exact le_max_right _ cv
  · rw [List.mem_singleton.mp hr]

/-- C10 witness: the first generated day of a series anchored at 100 is a
member of the series, and its registered value is at least 100. -/
theorem C10_witness :
    synthEntry 1095 100 hzero 0 ∈ syntheticAnchored 1095 100 hzero ∧
    (100 : ℚ) ≤ (synthEntry 1095 100 hzero 0).registered :=
  ⟨synthEntry_mem_anchored 1095 100 hzero 0 (by norm_num),
   C10_synthetic_floor 1095 100 hzero _ (synthEntry_mem_anchored 1095 100 hzero 0 (by norm_num))⟩

/-! ## C6: the backfill fallback -/

/-- C6 counterexample: a genuine two-row history (a real entry 1089 days
old, today's real entry) triggers the backfill; the archival fetch fails;
the regenerated file carries, for the genuine entry's date (day 6), the
synthetic entry — whose registered value differs from the genuine
120,000,000 — so a genuine fetched entry for a date already present was
silently overwritten. -/
theorem C6_counterexample :
    (⟨6, 120000000, 5⟩ : Entry) ∈ histC6 ∧
    (backfillHistoricalData 1095 (some histC6) none hzero).1 = true ∧
    (backfillHistoricalData 1095 (some histC6) none hzero).2 =
      some (syntheticAnchored 1095 113269767 hzero) ∧
    (syntheticAnchored 1095 113269767 hzero).find? (fun e => e.date == 6) =
      some (synthEntry 1095 113269767 hzero 6) ∧
    (synthEntry 1095 113269767 hzero 6).registered ≠ 120000000 := by
  refine ⟨by decide, rfl, rfl,
    syntheticAnchored_find_date 1095 113269767 hzero 6 6 (by norm_num) (by norm_num), ?_⟩
  simp only [synthEntry, piecewiseBase, hzero]
  norm_num

/-- C6 (amended): when the history spans fewer than 1090 days and the
archival fetch fails, the backfill replaces the stored history wholesale
with the synthetic series — a deterministic function of the run date, the
process hash and the last genuine registered value alone, so genuine
entries for dates already present are overwritten — and the series' most
recent point equals that last genuine registered value exactly. -/
theorem C6_backfill_amended (now : Int) (l : List Entry) (hashF : Int → Int) (e : Entry)
    (hlen : 2 ≤ l.length) (hspan : now - minDate l < 1090) (hlast : l.getLast? = some e) :
    backfillHistoricalData now (some l) none hashF =
      (true, some (syntheticAnchored now e.registered hashF)) ∧
    (syntheticAnchored now e.registered hashF).getLast? =
      some ⟨now, e.registered, 301972070⟩ := by
  have hbn : backfillNeeds now (some l) = (true, e.registered) := by
    simp only [backfillNeeds]
    rw [if_neg (by omega), if_pos hspan, hlast]
  constructor
  · simp only [backfillHistoricalData, hbn]
    simp
  · rw [syntheticAnchored_eq]
    exact List.getLast?_concat _

/-- C6 witness: the amended statement evaluated on the concrete short
history `histC6`. -/
theorem C6_witness :
    backfillHistoricalData 1095 (some histC6) none hzero =
      (true, some (syntheticAnchored 1095 113269767 hzero)) ∧
    (syntheticAnchored 1095 113269767 hzero).getLast? =
      some ⟨1095, 113269767, 301972070⟩ :=
  C6_backfill_amended 1095 histC6 hzero ⟨1095, 113269767, 6⟩ (by decide) (by decide) rfl

/-! ## Helper lemmas for `get_withdrawal_trend` -/

/-- The scan result is the initial best or one of the scanned entries. -/
theorem closestGo_mem (t : Int) : ∀ (l : List Entry) (b : Entry),
    closestGo t b l = b ∨ closestGo t b l ∈ l := by
  intro l
  induction l with
  | nil => intro b; left; rfl
  | cons e rest ih =>
    intro b
    unfold closestGo
    by_cases hcond : (e.date - t).natAbs < (b.date - t).natAbs
    · rw [if_pos hcond]
      rcases ih e with h | h
      · right; rw [h]; exact List.mem_cons_self e rest
      · right; exact List.mem_cons_of_mem e h
    · rw [if_neg hcond]
      rcases ih b with h | h
      · left; exact h
      · right; exact List.mem_cons_of_mem e h

/-- The scan result minimises the distance to the target over the initial
best and all scanned entries. -/
theorem closestGo_min (t : Int) : ∀ (l : List Entry) (b : Entry),
    ((closestGo t b l).date - t).natAbs ≤ (b.date - t).natAbs ∧
    ∀ e ∈ l, ((closestGo t b l).date - t).natAbs ≤ (e.date - t).natAbs := by
  intro l
  induction l with
  | nil => intro b; exact ⟨le_refl _, by simp⟩
  | cons e rest ih =>
    intro b
    unfold closestGo
    by_cases hcond : (e.date - t).natAbs < (b.date - t).natAbs
    · rw [if_pos hcond]
      obtain ⟨h1, h2⟩ := ih e
      refine ⟨h1.trans (le_of_lt hcond), ?_⟩
      intro x hx
      rcases List.mem_cons.mp hx with rfl | hx'
      · exact h1
      · exact h2 x hx'
    · rw [if_neg hcond]
      obtain ⟨h1, h2⟩ := ih b
      refine ⟨h1, ?_⟩
      intro x hx
      rcases List.mem_cons.mp hx with rfl | hx'
      · exact h1.trans (Nat.le_of_not_lt hcond)
      · exact h2 x hx'

/-- When one candidate is strictly closer to the target than every other
candidate, the scan returns exactly it. -/
theorem closestGo_unique (t : Int) (l : List Entry) (b c : Entry)
    (hc : c = b ∨ c ∈ l)
    (hstrict : ∀ e, (e = b ∨ e ∈ l) → e ≠ c →
      (c.date - t).natAbs < (e.date - t).natAbs) :
    closestGo t b l = c := by
  by_contra hne
  have hmin := closestGo_min t l b
  have hle : ((closestGo t b l).date - t).natAbs ≤ (c.date - t).natAbs := by
    rcases hc with rfl | hcl
    · exact hmin.1
    · exact hmin.2 c hcl
  have := hstrict (closestGo t b l) (closestGo_mem t l b) hne
  omega

/-- In a date-sorted list, every element's date is at most the last date. -/
theorem sorted_getLast_max : ∀ (l : List Entry), l.Sorted dateLE →
    ∀ z, l.getLast? = some z → ∀ x ∈ l, x.date ≤ z.date := by
  intro l
  induction l with
  | nil => intro _ z hz; simp at hz
  | cons a tl ih =>
    intro hs z hz x hx
    rcases List.sorted_cons.mp hs with ⟨ha, hs2⟩
    cases tl with
    | nil =>
      simp at hz hx
      rw [hx, ← hz]
    | cons b tl2 =>
      rw [List.getLast?_cons_cons] at hz
      rcases List.mem_cons.mp hx with rfl | hx'
      · have hab : dateLE x b := ha b (List.mem_cons_self b tl2)
        exact le_trans hab (ih hs2 z hz b (List.mem_cons_self b tl2))
      · exact ih hs2 z hz x hx'

/-- Two entries of a date-nodup list that share a date are the same entry. -/
theorem entry_eq_of_date_nodup : ∀ (l : List Entry),
    (l.map (fun e => e.date)).Nodup →
    ∀ a ∈ l, ∀ b ∈ l, a.date = b.date → a = b := by
  intro l
  induction l with
  | nil => intro _ a ha; simp at ha
  | cons x tl ih =>
    intro hnd a ha b hb hab
    rw [List.map_cons, List.nodup_cons] at hnd
    rcases List.mem_cons.mp ha with rfl | ha' <;> rcases List.mem_cons.mp hb with rfl | hb'
    · rfl
    · exact absurd (List.mem_map.mpr ⟨b, hb', hab.symm⟩) hnd.1
    · exact absurd (List.mem_map.mpr ⟨a, ha', hab⟩) hnd.1
    · exact ih hnd.2 a ha' b hb' hab

/-- Writing `getLast?` of a nonempty list as a `lastOr`. -/
theorem getLast?_eq_lastOr : ∀ (tl : List Entry) (h : Entry),
    (h :: tl).getLast? = some (lastOr tl h) := by
  intro tl
  induction tl with
  | nil => intro h; rfl
  | cons b tl2 ih =>
    intro h
    rw [List.getLast?_cons_cons, ih b]
    rfl

/-- The last-or-default of a list is the head or a member of the tail. -/
theorem lastOr_mem : ∀ (tl : List Entry) (h : Entry), lastOr tl h ∈ h :: tl := by
  intro tl
  induction tl with
  | nil => intro h; exact List.mem_singleton_self h
  | cons b tl2 ih =>
    intro h
    have hstep : lastOr (b :: tl2) h = lastOr tl2 b := rfl
    rw [hstep]
    exact List.mem_cons_of_mem h (ih b)

/-- Unfolding of `getWithdrawalTrend` once the sorted history is known. -/
theorem getWithdrawalTrend_cons (hist : List Entry) (s0 : Entry) (srest : List Entry)
    (hs : List.insertionSort dateLE hist = s0 :: srest) :
    getWithdrawalTrend hist =
      (if 5 < ((closestGo ((lastOr srest s0).date - 7) s0 srest).date -
          ((lastOr srest s0).date - 7)).natAbs then (none, 0)
       else (some ((lastOr srest s0).registered -
          (closestGo ((lastOr srest s0).date - 7) s0 srest).registered), 7)) := by
  unfold getWithdrawalTrend
  rw [hs]

/-- C7: for a nonempty history with pairwise-distinct dates, writing `latest`
for its maximal-date entry and `c` for the entry closest to
(latest date − 7): if that closest distance exceeds 5 days the trend is the
undefined result `(none, 0)` even when older data exists, and if the
(unique) closest entry is within 5 days the trend is
`latest.registered − c.registered` over a 7-day window. -/
theorem C7_withdrawal_trend (hist : List Entry) (latest c : Entry)
    (hne : hist ≠ [])
    (hnd : (hist.map (fun e => e.date)).Nodup)
    (hl : latest ∈ hist) (hmax : ∀ e ∈ hist, e.date ≤ latest.date)
    (hc : c ∈ hist) :
    ((∀ e ∈ hist, (c.date - (latest.date - 7)).natAbs ≤ (e.date - (latest.date - 7)).natAbs) →
        5 < (c.date - (latest.date - 7)).natAbs →
        getWithdrawalTrend hist = (none, 0)) ∧
    ((∀ e ∈ hist, e ≠ c →
        (c.date - (latest.date - 7)).natAbs < (e.date - (latest.date - 7)).natAbs) →
        (c.date - (latest.date - 7)).natAbs ≤ 5 →
        getWithdrawalTrend hist = (some (latest.registered - c.registered), 7)) := by
  cases hs : List.insertionSort dateLE hist with
  | nil =>
    exfalso
    have hp := List.perm_insertionSort dateLE hist
    rw [hs] at hp
    exact hne hp.symm.eq_nil
  | cons s0 srest =>
    have hperm : List.Perm (s0 :: srest) hist := by
      have hp := List.perm_insertionSort dateLE hist
      rwa [hs] at hp
    have hsorted : List.Sorted dateLE (s0 :: srest) := by
      have hp := List.sorted_insertionSort dateLE hist
      rwa [hs] at hp
    have hcur_mem : lastOr srest s0 ∈ hist := hperm.subset (lastOr_mem srest s0)
    have hcur_date : (lastOr srest s0).date = latest.date := by
      apply le_antisymm
      · exact hmax _ hcur_mem
      · exact sorted_getLast_max _ hsorted _ (getLast?_eq_lastOr srest s0) latest
          (hperm.mem_iff.mpr hl)
    have hcur : lastOr srest s0 = latest :=
      entry_eq_of_date_nodup hist hnd _ hcur_mem latest hl hcur_date
    constructor
    · intro hminle hgt
      rw [getWithdrawalTrend_cons hist s0 srest hs, hcur]
      rw [if_pos ?_]
      have hrmem : closestGo (latest.date - 7) s0 srest ∈ hist := by
        apply hperm.subset
        rcases closestGo_mem (latest.date - 7) srest s0 with h | h
        · rw [h]; exact List.mem_cons_self s0 srest
        · exact List.mem_cons_of_mem s0 h
      have hled := hminle _ hrmem
      omega
    · intro hstrict hle
      rw [getWithdrawalTrend_cons hist s0 srest hs, hcur]
      have hceq : closestGo (latest.date - 7) s0 srest = c := by
        apply closestGo_unique
        · rcases List.mem_cons.mp (hperm.mem_iff.mpr hc) with h | h
          · exact Or.inl h
          · exact Or.inr h
        · intro e he hec
          refine hstrict e (hperm.subset ?_) hec
          rcases he with rfl | h
          · exact List.mem_cons_self e srest
          · exact List.mem_cons_of_mem s0 h
      rw [hceq, if_neg (by omega)]

/-- C7 witness: history at days 0, 7, 14; the entry at day 7 is the unique
closest to (14 − 7), within 5 days, so the trend is 80 − 90 over 7 days. -/
theorem C7_witness :
    getWithdrawalTrend histC7 = (some ((80 : ℚ) - 90), 7) :=
  (C7_withdrawal_trend histC7 ⟨14, 80, 0⟩ ⟨7, 90, 0⟩ (by decide) (by decide) (by decide)
    (by decide) (by decide)).2 (by decide) (by decide)

/-! ## Helper lemmas for the header dedup (C8) -/

/-- Decimal evaluation inverts the fuel-driven decimal rendering. -/
theorem natCharsAux_round : ∀ (fuel n : Nat), n < fuel →
    fromChars (natCharsAux fuel n) = n := by
  intro fuel
  induction fuel with
  | zero => intro n h; exact absurd h (Nat.not_lt_zero n)
  | succ fuel ih =>
    intro n h
    unfold natCharsAux
    have hdig : ∀ m : Nat, m < 10 → digitVal (digitChar m) = m := by decide
    by_cases h10 : n < 10
    · rw [if_pos h10]
      simp [fromChars, hdig n h10]
    · rw [if_neg h10]
      have hdiv : n / 10 < fuel := by omega
      have ih2 := ih (n / 10) hdiv
      rw [fromChars] at ih2 ⊢
      rw [List.foldl_append, ih2]
      simp [hdig (n % 10) (Nat.mod_lt n (by norm_num))]
      omega

/-- Decimal rendering of naturals is injective. -/
theorem natChars_inj (a b : Nat) (h : natChars a = natChars b) : a = b := by
  have ha := natCharsAux_round (a + 1) a (Nat.lt_succ_self a)
  have hb := natCharsAux_round (b + 1) b (Nat.lt_succ_self b)
  rw [← ha, ← hb]
  exact congrArg fromChars h

/-- Projection `String.data` distributes over append. -/
theorem sdata_append (s t : String) : (s ++ t).data = s.data ++ t.data := rfl

/-- The characters of a suffixed name. -/
theorem suffix_data (c : String) (m : Nat) :
    (c ++ "_" ++ natStr m).data = c.data ++ '_' :: natChars m := by
  rw [sdata_append, sdata_append]
  simp [natStr]

/-- A suffixed name always contains an underscore. -/
theorem us_mem_suffix (c : String) (m : Nat) : '_' ∈ (c ++ "_" ++ natStr m).data := by
  rw [suffix_data]
  simp

/-- Splitting two equal strings at their first underscore: when neither
prefix contains an underscore, prefixes and suffixes agree. -/
theorem us_split : ∀ (u v x y : List Char), '_' ∉ u → '_' ∉ v →
    u ++ '_' :: x = v ++ '_' :: y → u = v ∧ x = y := by
  intro u
  induction u with
  | nil =>
    intro v x y _ hv h
    cases v with
    | nil => simpa using h
    | cons b v2 =>
      rw [List.nil_append, List.cons_append] at h
      injection h with h1 _
      exact absurd (h1 ▸ List.mem_cons_self b v2) hv
  | cons a u2 ih =>
    intro v x y hu hv h
    cases v with
    | nil =>
      rw [List.cons_append, List.nil_append] at h
      injection h with h1 _
      exact absurd (h1 ▸ List.mem_cons_self a u2) hu
    | cons b v2 =>
      rw [List.cons_append, List.cons_append] at h
      injection h with h1 h2
      obtain ⟨hu2, hx⟩ := ih v2 x y (fun hm => hu (List.mem_cons_of_mem a hm))
        (fun hm => hv (List.mem_cons_of_mem b hm)) h2
      exact ⟨by rw [h1, hu2], hx⟩

/-- Equal suffixed names with underscore-free bases have equal base and
equal numeric suffix. -/
theorem suffix_inj (c d : String) (k m : Nat)
    (hc : '_' ∉ c.data) (hd : '_' ∉ d.data)
    (h : c ++ "_" ++ natStr k = d ++ "_" ++ natStr m) : c = d ∧ k = m := by
  have hdata := congrArg String.data h
  rw [suffix_data, suffix_data] at hdata
  obtain ⟨h1, h2⟩ := us_split c.data d.data _ _ hc hd hdata
  exact ⟨String.ext h1, natChars_inj k m h2⟩

/-- Updating the `seen` dictionary with the current occurrence count moves
the dictionary one column forward. -/
theorem mkSeen_append_self (pre : List String) (c : String) :
    updSeen (mkSeen pre) c (pre.count c) = mkSeen (pre ++ [c]) := by
  funext s
  unfold updSeen mkSeen
  by_cases hsc : s = c
  · subst hsc
    rw [if_pos rfl, List.count_append]
    simp
  · rw [if_neg hsc, List.count_append]
    have h0 : List.count s [c] = 0 := by
      simp [List.count_cons, hsc]
    rw [h0]
    simp

/-- The dedup loop computes the count-based spec output. -/
theorem dedupAux_spec : ∀ (rest pre : List String),
    dedupAux (mkSeen pre) rest = specList pre rest := by
  intro rest
  induction rest with
  | nil => intro pre; rfl
  | cons c rest ih =>
    intro pre
    unfold dedupAux specList
    by_cases hc : pre.count c = 0
    · have hm : mkSeen pre c = none := by simp [mkSeen, hc]
      rw [hm, if_pos hc]
      have hupd : updSeen (mkSeen pre) c 0 = mkSeen (pre ++ [c]) := by
        have h := mkSeen_append_self pre c
        rwa [hc] at h
      rw [hupd, ih]
    · have hm : mkSeen pre c = some (pre.count c - 1) := by simp [mkSeen, hc]
      rw [hm, if_neg hc]
      show (c ++ "_" ++ natStr (pre.count c - 1 + 1)) ::
          dedupAux (updSeen (mkSeen pre) c (pre.count c - 1 + 1)) rest =
        (c ++ "_" ++ natStr (pre.count c)) :: specList (pre ++ [c]) rest
      have hsucc : pre.count c - 1 + 1 = pre.count c := by
        have hpos := Nat.pos_of_ne_zero hc
        omega
      rw [hsucc, mkSeen_append_self pre c, ih]

/-- The source dedup equals the spec-side dedup. -/
theorem dedupCols_eq (cols : List String) : dedupCols cols = dedupSpec cols := by
  have h0 : (fun _ : String => (none : Option Nat)) = mkSeen [] := by
    funext s
    simp [mkSeen]
  rw [dedupCols, dedupSpec, h0, dedupAux_spec]

/-- Shape of every element of the spec-side dedup output: a bare name with
no earlier occurrence, or a suffixed name whose counter dominates the
count already accumulated in `pre`. -/
theorem specList_cases : ∀ (rest pre : List String) (x : String), x ∈ specList pre rest →
    ∃ d m, d ∈ rest ∧ pre.count d ≤ m ∧
      ((m = 0 ∧ x = d) ∨ (1 ≤ m ∧ x = d ++ "_" ++ natStr m)) := by
  intro rest
  induction rest with
  | nil => intro pre x hx; simp [specList] at hx
  | cons c rest ih =>
    intro pre x hx
    unfold specList at hx
    rcases List.mem_cons.mp hx with rfl | hx2
    · refine ⟨c, pre.count c, List.mem_cons_self c rest, le_refl _, ?_⟩
      by_cases hc : pre.count c = 0
      · left
        exact ⟨hc, by rw [if_pos hc]⟩
      · right
        exact ⟨Nat.one_le_iff_ne_zero.mpr hc, by rw [if_neg hc]⟩
    · obtain ⟨d, m, hd, hcount, hcase⟩ := ih (pre ++ [c]) x hx2
      refine ⟨d, m, List.mem_cons_of_mem c hd, ?_, hcase⟩
      have hmono : pre.count d ≤ (pre ++ [c]).count d := by
        rw [List.count_append]
        omega
      exact hmono.trans hcount

/-- The spec-side dedup output has no duplicates when the original names
are underscore-free. -/
theorem specList_nodup : ∀ (rest pre : List String),
    (∀ s ∈ rest, '_' ∉ s.data) → (specList pre rest).Nodup := by
  intro rest
  induction rest with
  | nil => intro pre _; exact List.nodup_nil
  | cons c rest ih =>
    intro pre hfree
    unfold specList
    rw [List.nodup_cons]
    refine ⟨?_, ih (pre ++ [c]) (fun s hs => hfree s (List.mem_cons_of_mem c hs))⟩
    intro hmem
    obtain ⟨d, m, hd, hcount, hcase⟩ := specList_cases rest (pre ++ [c]) _ hmem
    have hcfree : '_' ∉ c.data := hfree c (List.mem_cons_self c rest)
    have hdfree : '_' ∉ d.data := hfree d (List.mem_cons_of_mem c hd)
    have hccount : (pre ++ [c]).count c = pre.count c + 1 := by
      rw [List.count_append]
      simp
    by_cases hc : pre.count c = 0
    · rcases hcase with ⟨hm0, hxd⟩ | ⟨hm1, hxd⟩
      · rw [if_pos hc] at hxd
        rw [← hxd, hccount] at hcount
        omega
      · rw [if_pos hc] at hxd
        exact hcfree (by rw [hxd]; exact us_mem_suffix d m)
    · rcases hcase with ⟨hm0, hxd⟩ | ⟨hm1, hxd⟩
      · rw [if_neg hc] at hxd
        exact hdfree (by rw [← hxd]; exact us_mem_suffix c (pre.count c))
      · rw [if_neg hc] at hxd
        obtain ⟨hcd, hkm⟩ := suffix_inj c d _ _ hcfree hdfree hxd
        rw [← hcd, hccount] at hcount
        omega

/-- C8 counterexample: a repeated header name is suffixed `_1`, not `_2`
(`["A","A"]` dedups to `["A","A_1"]`), and when an original name collides
with a generated one (`["A","A","A_1"]`) the output is not even unique. -/
theorem C8_counterexample :
    dedupCols ["A", "A"] ≠ ["A", "A_2"] ∧
    dedupCols ["A", "A"] = ["A", "A_1"] ∧
    ¬ (dedupCols ["A", "A", "A_1"]).Nodup :=
  ⟨by decide, by decide, by decide⟩

/-- C8 (amended): repeated header names are deduplicated by suffixing
`_1`, `_2`, … in order of appearance (the k-th repeat of a name beyond the
first becomes `name_k`), and the resulting column names are unique
whenever no original header name contains an underscore (so no original
can collide with a generated suffixed name). -/
theorem C8_dedup_amended (cols : List String) :
    dedupCols cols = dedupSpec cols ∧
    ((∀ s ∈ cols, '_' ∉ s.data) → (dedupCols cols).Nodup) := by
  refine ⟨dedupCols_eq cols, fun hfree => ?_⟩
  rw [dedupCols_eq cols, dedupSpec]
  exact specList_nodup cols [] hfree

/-- C8 witness: the amended statement on the concrete header
`["A","B","A","A"]`, whose dedup is `["A","B","A_1","A_2"]`. -/
theorem C8_witness :
    dedupCols ["A", "B", "A", "A"] = dedupSpec ["A", "B", "A", "A"] ∧
    (dedupCols ["A", "B", "A", "A"]).Nodup :=
  ⟨(C8_dedup_amended ["A", "B", "A", "A"]).1,
   (C8_dedup_amended ["A", "B", "A", "A"]).2 (by decide)⟩

/-! ## Helper lemmas for the Tabular Extractor (C1, C2) -/

/-- A successful `find?` pins down the head of the corresponding `filter`. -/
theorem filter_cons_of_find? {α : Type} (p : α → Bool) :
    ∀ (l : List α) (a : α), l.find? p = some a → ∃ t, l.filter p = a :: t := by
  intro l
  induction l with
  | nil => intro a h; simp at h
  | cons x xs ih =>
    intro a h
    by_cases hp : p x = true
    · rw [List.find?_cons_of_pos _ hp] at h
      rw [Option.some.injEq] at h
      subst h
      exact ⟨xs.filter p, List.filter_cons_of_pos hp⟩
    · rw [List.find?_cons_of_neg _ hp] at h
      obtain ⟨t, ht⟩ := ih a h
      exact ⟨t, by rw [List.filter_cons_of_neg hp, ht]⟩

/-- Being-a-prefix is transitive. -/
theorem isPrefTok_trans : ∀ (p q s : List Char),
    isPrefTok p q = true → isPrefTok q s = true → isPrefTok p s = true := by
  intro p
  induction p with
  | nil => intro q s _ _; rfl
  | cons a p2 ih =>
    intro q s hpq hqs
    cases q with
    | nil => simp [isPrefTok] at hpq
    | cons b q2 =>
      rw [isPrefTok, Bool.and_eq_true] at hpq
      obtain ⟨hab, hpq2⟩ := hpq
      cases s with
      | nil => simp [isPrefTok] at hqs
      | cons d s2 =>
        rw [isPrefTok, Bool.and_eq_true] at hqs
        obtain ⟨hbd, hqs2⟩ := hqs
        rw [isPrefTok, Bool.and_eq_true]
        refine ⟨?_, ih q2 s2 hpq2 hqs2⟩
        rw [beq_iff_eq] at hab hbd ⊢
        rw [hab, hbd]

/-- If `q` occurs in `s` then so does every prefix of `q`. -/
theorem subTok_mono : ∀ (s p q : List Char), isPrefTok p q = true →
    subTok q s = true → subTok p s = true := by
  intro s
  induction s with
  | nil =>
    intro p q hpq hqs
    rw [subTok] at hqs ⊢
    cases q with
    | nil =>
      cases p with
      | nil => rfl
      | cons a p2 => simp [isPrefTok] at hpq
    | cons b q2 => simp [isPrefTok] at hqs
  | cons d s2 ih =>
    intro p q hpq hqs
    rw [subTok, Bool.or_eq_true] at hqs
    rw [subTok, Bool.or_eq_true]
    rcases hqs with h | h
    · exact Or.inl (isPrefTok_trans p q (d :: s2) hpq h)
    · exact Or.inr (ih p q hpq h)

/-- Every labelled row produced by the row strip is a row of the grid. -/
theorem stripFrom_mem : ∀ (g : List (List Cell)) (n : Nat) (q : Nat × List Cell),
    q ∈ stripFrom n g → q.2 ∈ g := by
  intro g
  induction g with
  | nil => intro n q h; simp [stripFrom] at h
  | cons r rs ih =>
    intro n q h
    rw [stripFrom] at h
    by_cases hr : rowAllEmpty r = true
    · rw [if_pos hr] at h
      exact List.mem_cons_of_mem r (ih (n + 1) q h)
    · rw [if_neg hr] at h
      rcases List.mem_cons.mp h with rfl | h2
      · exact List.mem_cons_self r rs
      · exact List.mem_cons_of_mem r (ih (n + 1) q h2)

/-- Every row of the stripped grid is the projection of a row of the grid. -/
theorem stripped_shape (g : List (List Cell)) (q : Nat × List Cell) (hq : q ∈ stripped g) :
    ∃ row ∈ g, q.2 = projRow g row := by
  rw [stripped] at hq
  rcases List.mem_map.mp hq with ⟨p, hp, rfl⟩
  exact ⟨p.2, stripFrom_mem g 0 p hp, rfl⟩

/-- The totals extractor with its header search and slicing laid out
explicitly. -/
theorem loadTotals_eq (g : List (List Cell)) :
    loadTotals g =
      (match headerLabel (stripped g) with
       | none => Totals.notFound
       | some lbl =>
         match ((stripped g).drop (lbl + 1)).filter (fun p => trMatch p.2),
             ((stripped g).drop (lbl + 1)).filter (fun p => teMatch p.2) with
         | tr :: _, te :: _ => Totals.grand (tr.2.getLastD .empty) (te.2.getLastD .empty)
         | _, _ =>
           match ((stripped g).drop (lbl + 1)).filter (fun p => totalMatch p.2) with
           | [] => Totals.notFound
           | l => Totals.legacy (l.map (fun p => p.2))) := rfl

/-- The header search returns the label of the first both-marker row. -/
theorem headerLabel_of_find? (S : List (Nat × List Cell)) (k : Nat) (r : List Cell)
    (h : S.find? (fun p => hasBothMarkers p.2) = some (k, r)) :
    headerLabel S = some k := by
  rw [headerLabel, h]

/-- With no marker row at all, the header search falls back to the first row. -/
theorem headerLabel_of_no_marker (S : List (Nat × List Cell))
    (h1 : S.find? (fun p => hasBothMarkers p.2) = none)
    (h2 : S.find? (fun p => depositoryHdr p.2) = none) :
    headerLabel S = S.head?.map (fun p => p.1) := by
  rw [headerLabel, h1, h2]

/-- C2: on a raw grid in which no row matches any marker token (neither the
RECEIVED/WITHDRAWN pair nor DEPOSITORY) and no row's first column contains
the substring TOTAL, `load_data` yields the not-found outcome — never a
zero-filled record. -/
theorem C2_extract_notFound (g : List (List Cell))
    (hm : ∀ row ∈ g, markerFree (projRow g row) = true)
    (ht : ∀ row ∈ g, noTotalCol (projRow g row) = true) :
    loadTotals g = .notFound := by
  have hboth : ∀ q ∈ stripped g, hasBothMarkers q.2 = false := by
    intro q hq
    obtain ⟨row, hrow, hq2⟩ := stripped_shape g q hq
    have hmf := hm row hrow
    rw [markerFree, Bool.and_eq_true, Bool.and_eq_true] at hmf
    obtain ⟨⟨hr, _⟩, _⟩ := hmf
    rw [Bool.not_eq_true'] at hr
    rw [hq2, hasBothMarkers, hr, Bool.false_and]
  have hdepo : ∀ q ∈ stripped g, depositoryHdr q.2 = false := by
    intro q hq
    obtain ⟨row, hrow, hq2⟩ := stripped_shape g q hq
    have hmf := hm row hrow
    rw [markerFree, Bool.and_eq_true, Bool.and_eq_true] at hmf
    obtain ⟨_, hdep⟩ := hmf
    rw [hq2, depositoryHdr]
    cases hfc : firstCell (projRow g row) with
    | empty => rfl
    | num n => rfl
    | str s =>
      rw [hfc] at hdep
      rw [Bool.not_eq_true'] at hdep
      show (subTok "DEPOSITORY".data (upChars s.data) &&
        decide ((trimChars s.data).length < 30)) = false
      rw [hdep, Bool.false_and]
  have hfirstcol : ∀ (tok : String), isPrefTok "TOTAL".data tok.data = true →
      ∀ q ∈ stripped g, firstColHas tok q.2 = false := by
    intro tok htok q hq
    obtain ⟨row, hrow, hq2⟩ := stripped_shape g q hq
    have hnt := ht row hrow
    rw [noTotalCol, Bool.not_eq_true'] at hnt
    rw [hq2]
    cases hmatch : firstColHas tok (projRow g row) with
    | false => rfl
    | true =>
      exfalso
      rw [firstColHas] at hmatch hnt
      have hT := subTok_mono _ "TOTAL".data tok.data htok hmatch
      rw [hnt] at hT
      exact Bool.false_ne_true hT
  have hfind1 : (stripped g).find? (fun p => hasBothMarkers p.2) = none :=
    List.find?_eq_none.mpr (fun q hq => by simp [hboth q hq])
  have hfind2 : (stripped g).find? (fun p => depositoryHdr p.2) = none :=
    List.find?_eq_none.mpr (fun q hq => by simp [hdepo q hq])
  have hfiltr : ∀ j, ((stripped g).drop j).filter (fun p => trMatch p.2) = [] := fun j =>
    List.filter_eq_nil_iff.mpr (fun q hq => by
      simp [trMatch, hfirstcol "TOTAL REGISTERED" (by decide) q (List.drop_subset j _ hq)])
  have hfilte : ∀ j, ((stripped g).drop j).filter (fun p => teMatch p.2) = [] := fun j =>
    List.filter_eq_nil_iff.mpr (fun q hq => by
      simp [teMatch, hfirstcol "TOTAL ELIGIBLE" (by decide) q (List.drop_subset j _ hq)])
  have hfiltot : ∀ j, ((stripped g).drop j).filter (fun p => totalMatch p.2) = [] := fun j =>
    List.filter_eq_nil_iff.mpr (fun q hq => by
      simp [totalMatch, hfirstcol "TOTAL" (by decide) q (List.drop_subset j _ hq)])
  rw [loadTotals_eq, headerLabel_of_no_marker _ hfind1 hfind2]
  cases hh : (stripped g).head? with
  | none => rfl
  | some q0 =>
    show (match ((stripped g).drop (q0.1 + 1)).filter (fun p => trMatch p.2),
         ((stripped g).drop (q0.1 + 1)).filter (fun p => teMatch p.2) with
     | tr :: _, te :: _ => Totals.grand (tr.2.getLastD .empty) (te.2.getLastD .empty)
     | _, _ =>
       match ((stripped g).drop (q0.1 + 1)).filter (fun p => totalMatch p.2) with
       | [] => Totals.notFound
       | l => Totals.legacy (l.map (fun p => p.2))) = Totals.notFound
    rw [hfiltr (q0.1 + 1), hfilte (q0.1 + 1), hfiltot (q0.1 + 1)]

/-- C2 witness: a grid with no marker tokens and no TOTAL rows extracts to
the not-found outcome. -/
theorem C2_witness : loadTotals gPlain = .notFound :=
  C2_extract_notFound gPlain (by decide) (by decide)

/-- C1 counterexample: `gBad` carries one leading fully-empty row above a
valid header (both marker tokens, found first at position 0 with pandas
label 1); the TOTAL REGISTERED and TOTAL ELIGIBLE rows sit beneath the
header with rightmost values 7 and 9, yet `load_data` does not return the
grand-total record (7, 9): the label-based `iloc` slice skips the first
data row, so extraction falls back to the legacy TOTAL row. -/
theorem C1_counterexample :
    (stripped gBad)[0]? = some (1, [.str "DEPOSITORY", .str "RECEIVED", .str "WITHDRAWN"]) ∧
    hasBothMarkers [Cell.str "DEPOSITORY", .str "RECEIVED", .str "WITHDRAWN"] = true ∧
    ((stripped gBad).drop 1).find? (fun p => trMatch p.2) =
      some (2, [.str "TOTAL REGISTERED", .num 5, .num 7]) ∧
    ((stripped gBad).drop 1).find? (fun p => teMatch p.2) =
      some (3, [.str "TOTAL ELIGIBLE", .num 6, .num 9]) ∧
    loadTotals gBad = .legacy [[.str "TOTAL ELIGIBLE", .num 6, .num 9]] ∧
    loadTotals gBad ≠ .grand (.num 7) (.num 9) :=
  ⟨by decide, by decide, by decide, by decide, by decide, by decide⟩

/-- C1 (amended): when the first both-marker header row sits at position `k`
of the stripped grid with pandas label `k` as well — that is, when no
fully-empty row precedes the header — and rows beneath it match TOTAL
REGISTERED and TOTAL ELIGIBLE in their first column, `load_data` returns
the grand-total record whose registered and eligible values are the
rightmost-column cells of the first matching rows. -/
theorem C1_extract_amended (g : List (List Cell)) (k : Nat) (r : List Cell)
    (trl tel : Nat) (trRow teRow : List Cell)
    (hhdr : (stripped g)[k]? = some (k, r))
    (hmark : hasBothMarkers r = true)
    (hfirst : ∀ m q, m < k → (stripped g)[m]? = some q → hasBothMarkers q.2 = false)
    (hTR : ((stripped g).drop (k + 1)).find? (fun p => trMatch p.2) = some (trl, trRow))
    (hTE : ((stripped g).drop (k + 1)).find? (fun p => teMatch p.2) = some (tel, teRow)) :
    loadTotals g = .grand (trRow.getLastD .empty) (teRow.getLastD .empty) := by
  have hfind : (stripped g).find? (fun p => hasBothMarkers p.2) = some (k, r) :=
    find?_of_getElem? _ _ k (k, r) hhdr hmark hfirst
  obtain ⟨t1, ht1⟩ := filter_cons_of_find? _ _ _ hTR
  obtain ⟨t2, ht2⟩ := filter_cons_of_find? _ _ _ hTE
  rw [loadTotals_eq, headerLabel_of_find? _ _ _ hfind]
  show (match ((stripped g).drop (k + 1)).filter (fun p => trMatch p.2),
       ((stripped g).drop (k + 1)).filter (fun p => teMatch p.2) with
   | tr :: _, te :: _ => Totals.grand (tr.2.getLastD .empty) (te.2.getLastD .empty)
   | _, _ =>
     match ((stripped g).drop (k + 1)).filter (fun p => totalMatch p.2) with
     | [] => Totals.notFound
     | l => Totals.legacy (l.map (fun p => p.2))) =
    Totals.grand (trRow.getLastD .empty) (teRow.getLastD .empty)
  rw [ht1, ht2]

/-- C1 witness: the same grid without the leading empty row extracts the
grand-total record with the rightmost values 7 and 9. -/
theorem C1_witness : loadTotals gGood = .grand (.num 7) (.num 9) :=
  C1_extract_amended gGood 0 [Cell.str "DEPOSITORY", .str "RECEIVED", .str "WITHDRAWN"]
    1 2 [Cell.str "TOTAL REGISTERED", .num 5, .num 7] [Cell.str "TOTAL ELIGIBLE", .num 6, .num 9]
    (by decide) (by decide)
    (fun m q hm _ => absurd hm (Nat.not_lt_zero m))
    (by decide) (by decide)

end Silver
